import Mathlib

/-!
Verification development for the thinkbank Go backend.

The embedding models the two request handlers that carry the system's logic:

* `retrieveAssetsForQuery` (biz/handler/search_handler.go) — hybrid lexical +
  vector retrieval with recency tie-break, rounding, threshold filtering,
  sorting and truncation, together with its helpers `normalizeSearchText`,
  `uniqueRunes`, `previewText`, `parseIntWithDefault`, `parseFloatWithDefault`
  and the message assembly of `callLLMForRAG`;
* `Upload` / `DeleteAsset` (biz/handler/asset_handler.go) — validation,
  side-effect sequencing against MinIO / Postgres / Redis, and the storage-key
  derivation of `minio.UploadFile` (biz/dal/minio).

Modelling conventions:

* Go strings are lists of runes (`Str := List Char`); Go's `strings.ToLower`
  is modelled per rune by `Char.toLower`.
* Go `float64` score arithmetic is modelled by exact rationals.  To keep every
  definition kernel-computable the arithmetic is written with `mkRat`-based
  operations (`qadd`, `qsub`, `qmul`, `qmin`, `qmax`); each is proved equal to
  the corresponding field operation on `ℚ`.
* Timestamps are rationals measured in hours, so that
  `time.Since(a.CreatedAt).Hours()` becomes `now - a.createdAt`.
* External collaborators (Postgres result sets, the embedding HTTP call, the
  pgvector query, MinIO presigning, Redis) are inputs: a `RetrieveEnv` record
  for search and boolean success flags for the upload/delete side effects.
  Side effects performed by `Upload`/`DeleteAsset` are reified as a trace.
-/

abbrev Str := List Char

/-- Rune list of a Lean string literal. -/
def chars (s : String) : Str := s.data

/-! ### Kernel-computable rational arithmetic

`Rat.add`, `Rat.sub`, `Rat.mul` and friends are `@[irreducible]`, so concrete
score computations could not be settled by `decide` if the embedding used the
field operations directly.  The wrappers below compute with `mkRat` and are
proved equal to the field operations. -/

def qadd (a b : ℚ) : ℚ := mkRat (a.num * b.den + b.num * a.den) (a.den * b.den)

def qsub (a b : ℚ) : ℚ := mkRat (a.num * b.den - b.num * a.den) (a.den * b.den)

def qmul (a b : ℚ) : ℚ := mkRat (a.num * b.num) (a.den * b.den)

def qmin (a b : ℚ) : ℚ := if a ≤ b then a else b

def qmax (a b : ℚ) : ℚ := if a ≤ b then b else a

/-- Model of Go `math.Round`: round to the nearest integer, halves away from
zero. -/
def goRound (q : ℚ) : ℤ :=
  if q < 0 then -(Rat.floor (qadd (-q) (mkRat 1 2))) else Rat.floor (qadd q (mkRat 1 2))

/-- Model of `math.Round(x*1000)/1000`: round to three decimal places. -/
def round3 (q : ℚ) : ℚ := mkRat (goRound (qmul q 1000)) 1000

/-! ### String helpers from search_handler.go and the Go standard library -/

/-- White-space test used by `strings.TrimSpace` / `strings.Fields` for the
ASCII range relevant here. -/
def isGoSpace (c : Char) : Bool :=
  c == ' ' || c == '\t' || c == '\n' || c == '\r' || c == '\x0b' || c == '\x0c'

def goToLower (s : Str) : Str := s.map Char.toLower

/-- Model of `strings.TrimSpace`. -/
def goTrimSpace (s : Str) : Str :=
  ((s.dropWhile isGoSpace).reverse.dropWhile isGoSpace).reverse

/-- Model of the `strings.NewReplacer("\n"," ","\t"," ","\r"," ")` pass. -/
def replaceWsChars (s : Str) : Str :=
  s.map (fun c => if c == '\n' || c == '\t' || c == '\r' then ' ' else c)

/-- Split on white space, keeping empty pieces (helper for `goFields`). -/
def splitSp (s : Str) : List Str :=
  s.foldr (fun c acc => if isGoSpace c then [] :: acc else (c :: acc.headD []) :: acc.tail) [[]]

/-- Model of `strings.Fields`: maximal runs of non-space runes. -/
def goFields (s : Str) : List Str := (splitSp s).filter (fun w => !w.isEmpty)

/-- Model of `normalizeSearchText`: lower-case, trim, replace `\n`/`\t`/`\r`
by spaces, then re-join the fields with single spaces. -/
def normalizeSearchText (s : Str) : Str :=
  List.intercalate [' '] (goFields (replaceWsChars (goTrimSpace (goToLower s))))

/-- Worker for `uniqueRunes`, carrying the set of runes already seen. -/
def uniqueRunesFrom (seen : List Char) : Str → List Char
  | [] => []
  | c :: rest =>
    if c == ' ' || seen.contains c then uniqueRunesFrom seen rest
    else c :: uniqueRunesFrom (c :: seen) rest

/-- Model of `uniqueRunes`: distinct runes of the input in first-occurrence
order, skipping spaces. -/
def uniqueRunes (s : Str) : List Char := uniqueRunesFrom [] s

/-- Model of `strings.HasPrefix pre ⊑ s` (does `s` start with `pre`?). -/
def strStartsWith : Str → Str → Bool
  | _, [] => true
  | [], _ :: _ => false
  | a :: as, b :: bs => a == b && strStartsWith as bs

/-- Model of `strings.Contains`. -/
def strContains : Str → Str → Bool
  | [], needle => needle.isEmpty
  | c :: rest, needle => strStartsWith (c :: rest) needle || strContains rest needle

/-- Worker for `goPathExt`; walks the reversed path, collecting the runes seen
so far (in forward order) until a dot or a separator is found. -/
def goPathExtAux : Str → Str → Str
  | [], _ => []
  | c :: rest, acc =>
    if c == '/' then [] else if c == '.' then c :: acc else goPathExtAux rest (c :: acc)

/-- Model of `filepath.Ext`: the suffix starting at the final dot in the final
slash-separated element of the path, or empty. -/
def goPathExt (s : Str) : Str := goPathExtAux s.reverse []

/-- Model of `filepath.Base`. -/
def goPathBase (s : Str) : Str :=
  if s.isEmpty then ['.']
  else
    let t := (s.reverse.dropWhile (fun c => c == '/')).reverse
    if t.isEmpty then ['/'] else (t.reverse.takeWhile (fun c => !(c == '/'))).reverse

/-- Model of `previewText`: trimmed text truncated to `maxLen` runes with a
trailing ellipsis. -/
def previewText (input : Str) (maxLen : ℤ) : Str :=
  let t := goTrimSpace input
  if t.isEmpty ∨ maxLen ≤ 0 then []
  else if (t.length : ℤ) ≤ maxLen then t
  else t.take maxLen.toNat ++ chars "..."

/-! ### Data model -/

/-- Model of `model.Asset` as the search and delete handlers consume it.
`deletedAt` is the GORM soft-delete column. -/
structure Asset where
  id : Str
  bucketName : Str
  objectName : Str
  mimeType : Str
  caption : Str
  contentText : Str
  processingStatus : Str
  sizeBytes : ℤ
  createdAt : ℚ
  deletedAt : Option ℚ
deriving DecidableEq

/-- Model of the `SearchResult` JSON payload. -/
structure SearchResult where
  id : Str
  fileName : Str
  mimeType : Str
  sizeBytes : ℤ
  caption : Str
  contentPreview : Str
  processingStatus : Str
  score : ℚ
  url : Str
  createdAt : ℚ
deriving DecidableEq

/-- Ordering used by the `sort.Slice` call: score descending, ties broken by
creation time descending. -/
def resultLE (a b : SearchResult) : Prop :=
  b.score < a.score ∨ (a.score = b.score ∧ b.createdAt ≤ a.createdAt)

instance : DecidableRel resultLE := fun a b => by
  unfold resultLE; infer_instance

instance : IsTotal SearchResult resultLE where
  total a b := by
    rcases lt_trichotomy a.score b.score with h | h | h
    · exact Or.inr (Or.inl h)
    · rcases le_total b.createdAt a.createdAt with h2 | h2
      · exact Or.inl (Or.inr ⟨h, h2⟩)
      · exact Or.inr (Or.inr ⟨h.symm, h2⟩)
    · exact Or.inl (Or.inl h)

instance : IsTrans SearchResult resultLE where
  trans a b c hab hbc := by
    rcases hab with h1 | ⟨e1, c1⟩ <;> rcases hbc with h2 | ⟨e2, c2⟩
    · exact Or.inl (h2.trans h1)
    · exact Or.inl (e2 ▸ h1)
    · exact Or.inl (e1 ▸ h2)
    · exact Or.inr ⟨e1.trans e2, c2.trans c1⟩

/-- Environment of one `retrieveAssetsForQuery` call: the wall clock, the
result of the embedding HTTP call (`nil` slice ↦ `none`), whether the raw
pgvector query succeeded, the `(asset_id, cosine distance)` rows it returned,
and the best-effort MinIO presigner. -/
structure RetrieveEnv where
  now : ℚ
  queryVector : Option (List ℚ)
  vectorDbOk : Bool
  vectorRows : List (Str × ℚ)
  presign : Str → Str → Option Str

/-! ### Hybrid retrieval pipeline (`retrieveAssetsForQuery`) -/

/-- Insert with overwrite, modelling assignment into a Go map. -/
def mapInsert (m : List (Str × ℚ)) (k : Str) (v : ℚ) : List (Str × ℚ) :=
  (k, v) :: m.filter (fun p => !(p.1 == k))

/-- Model of the score map built by `pgvectorSearch`: cosine distance turned
into a similarity `1 - d` floored at `0`, keyed by asset id. -/
def buildVectorScores (rows : List (Str × ℚ)) : List (Str × ℚ) :=
  rows.foldl (fun m p => mapInsert m p.1 (qmax 0 (qsub 1 p.2))) []

/-- Go map read with zero value for a missing key. -/
def mapLookup (m : List (Str × ℚ)) (k : Str) : ℚ := (List.lookup k m).getD 0

/-- Model of `hasQuery := normalizedQuery != ""`. -/
def hasQueryOf (q : Str) : Bool := !(normalizeSearchText q).isEmpty

/-- Vector scores available to the ranking loop: empty unless the query is
non-empty, the embedding call returned a vector, and the pgvector query
succeeded. -/
def vectorScoresOf (env : RetrieveEnv) (q : Str) : List (Str × ℚ) :=
  if hasQueryOf q then
    match env.queryVector with
    | some _ => if env.vectorDbOk then buildVectorScores env.vectorRows else []
    | none => []
  else []

/-- Model of the per-candidate `searchText`: the normalized join of filename,
MIME type, caption and extracted text. -/
def assetSearchText (a : Asset) : Str :=
  normalizeSearchText
    (goPathBase a.objectName ++ ' ' :: (a.mimeType ++ ' ' :: (a.caption ++ ' ' :: a.contentText)))

/-- Substring hit on the combined candidate text: worth 2.0. -/
def lexSubstringScore (nq : Str) (a : Asset) : ℚ :=
  if strContains (assetSearchText a) nq then 2 else 0

/-- Substring hit on the caption alone: worth 1.0. -/
def lexCaptionScore (nq : Str) (a : Asset) : ℚ :=
  if strContains (normalizeSearchText a.caption) nq then 1 else 0

/-- Character-coverage term as the code computes it, guarded by
`len(queryRunes) > 0`. -/
def coverageScore (nq : Str) (a : Asset) : ℚ :=
  if (uniqueRunes nq).isEmpty then 0
  else
    mkRat ((uniqueRunes nq).countP (fun r => (assetSearchText a).contains r))
      (uniqueRunes nq).length

/-- Model of the character score (0–3 range, `0.1` for the empty query). -/
def charScoreOf (q : Str) (a : Asset) : ℚ :=
  if hasQueryOf q = false then mkRat 1 10
  else
    qadd
      (qadd (lexSubstringScore (normalizeSearchText q) a)
        (lexCaptionScore (normalizeSearchText q) a))
      (coverageScore (normalizeSearchText q) a)

/-- Model of `charScoreNorm := math.Min(charScore/3.0, 1.0)`. -/
def charScoreNormOf (q : Str) (a : Asset) : ℚ :=
  qmin (qmul (charScoreOf q a) (mkRat 1 3)) 1

/-- Hybrid combination: `0.7*vec + 0.3*lex` when any vector scores exist for
this query, otherwise the lexical score alone. -/
def hybridBase (scores : List (Str × ℚ)) (vec lex : ℚ) : ℚ :=
  if scores.isEmpty then lex else qadd (qmul (mkRat 7 10) vec) (qmul (mkRat 3 10) lex)

/-- Recency tie-break `0.001 * hours * (-1.0)` added to the score. -/
def recencyAdjust (now created : ℚ) : ℚ :=
  qmul (qmul (mkRat 1 1000) (qsub now created)) (-1)

/-- Model of the hybrid + recency + rounding score of one candidate. -/
def finalScoreOf (env : RetrieveEnv) (q : Str) (a : Asset) : ℚ :=
  round3 (qadd
    (hybridBase (vectorScoresOf env q) (mapLookup (vectorScoresOf env q) a.id)
      (charScoreNormOf q a))
    (recencyAdjust env.now a.createdAt))

/-- Shared assembly of a `SearchResult` from an asset and a score. -/
def mkResultWithScore (env : RetrieveEnv) (a : Asset) (s : ℚ) : SearchResult :=
  { id := a.id
    fileName := goPathBase a.objectName
    mimeType := a.mimeType
    sizeBytes := a.sizeBytes
    caption := a.caption
    contentPreview := previewText a.contentText 240
    processingStatus := a.processingStatus
    score := s
    url := (env.presign a.bucketName a.objectName).getD []
    createdAt := a.createdAt }

/-- One candidate's `SearchResult` as built in the ranking loop. -/
def mkSearchResult (env : RetrieveEnv) (q : Str) (a : Asset) : SearchResult :=
  mkResultWithScore env a (finalScoreOf env q a)

/-- Ranking loop: build each result, skipping candidates below the threshold
when the query is non-empty (the `continue`). -/
def scoredResults (env : RetrieveEnv) (q : Str) (th : ℚ) (assets : List Asset) :
    List SearchResult :=
  assets.filterMap (fun a =>
    let r := mkSearchResult env q a
    if hasQueryOf q = true ∧ r.score < th then none else some r)

/-- Model of the limit clamp: non-positive ↦ 20, above 100 ↦ 100. -/
def clampLimit (limit : ℤ) : ℕ :=
  if limit ≤ 0 then 20 else if 100 < limit then 100 else limit.toNat

/-- Model of `retrieveAssetsForQuery` after the candidate fetch: score,
filter, sort, truncate.  The unstable `sort.Slice` is modelled by insertion
sort over the same comparator — a canonical choice among the orderings the Go
sort may produce. -/
def retrieveAssetsForQuery (env : RetrieveEnv) (assets : List Asset) (q : Str)
    (limit : ℤ) (th : ℚ) : List SearchResult :=
  (List.insertionSort resultLE (scoredResults env q th assets)).take (clampLimit limit)

/-- Model of `retrieveAssetsForQuery` including the candidate fetch: a
metadata-store failure aborts, nothing else does. -/
def retrieveAssetsForQueryE (env : RetrieveEnv) (dbResult : Except Unit (List Asset))
    (q : Str) (limit : ℤ) (th : ℚ) : Except Unit (List SearchResult) :=
  match dbResult with
  | .error e => .error e
  | .ok assets => .ok (retrieveAssetsForQuery env assets q limit th)

/-! ### Spec-side definitions (for the refinement claims)

These two definitions follow the wording of the specification, to be compared
with the code-side pipeline above. -/

def clamp01 (x : ℚ) : ℚ := qmax 0 (qmin x 1)

/-- Fraction of distinct non-space query runes individually present in the
candidate text, as the specification words it (no emptiness guard). -/
def specCoverage (nq : Str) (a : Asset) : ℚ :=
  mkRat ((uniqueRunes nq).countP (fun r => (assetSearchText a).contains r))
    (uniqueRunes nq).length

/-- Spec-side lexical score: 2.0 for a substring hit on the combined text,
1.0 for a caption hit, plus the fraction of distinct non-space query runes
present in the candidate text; the sum divided by 3 and clamped to `[0,1]`;
a flat constant for the empty query. -/
def specLexicalScore (q : Str) (a : Asset) : ℚ :=
  if (normalizeSearchText q).isEmpty then mkRat 1 30
  else
    clamp01 (qmul
      (qadd
        (qadd (lexSubstringScore (normalizeSearchText q) a)
          (lexCaptionScore (normalizeSearchText q) a))
        (specCoverage (normalizeSearchText q) a))
      (mkRat 1 3))

/-- Spec-side lexical-only ranking: every candidate's combined score is its
normalized lexical score plus the recency adjustment; threshold filtering for
non-empty queries only; sort by score then creation time; truncate. -/
def lexicalOnlyRanking (env : RetrieveEnv) (assets : List Asset) (q : Str)
    (limit : ℤ) (th : ℚ) : List SearchResult :=
  (List.insertionSort resultLE (assets.filterMap (fun a =>
    let r := mkResultWithScore env a
      (round3 (qadd (specLexicalScore q a) (recencyAdjust env.now a.createdAt)))
    if hasQueryOf q = true ∧ r.score < th then none else some r))).take (clampLimit limit)

/-! ### Upload (asset_handler.go and minio.UploadFile) -/

/-- Allow-list of `isValidFileType`. -/
def validUploadTypes : List Str :=
  [chars "image/jpeg", chars "image/png", chars "image/gif", chars "image/webp",
   chars "application/pdf", chars "text/plain", chars "application/json",
   chars "text/markdown"]

/-- Model of `isValidFileType`: some allow-list entry is an initial segment of
(or equal to) the declared content type. -/
def isValidFileType (contentType : Str) : Bool :=
  validUploadTypes.any (fun t => strStartsWith contentType t)

/-- Model of the object-path derivation of `minio.UploadFile`: if the object
name has no extension, append the upload's extension, defaulting to `.bin`. -/
def uploadObjectPath (objectName filename : Str) : Str :=
  let ext := goPathExt filename
  if (goPathExt objectName).isEmpty then
    objectName ++ (if ext.isEmpty then chars ".bin" else ext)
  else objectName

/-- Uploaded file as obtained from the multipart form. -/
structure MultipartFile where
  filename : Str
  size : ℤ
  contentType : Str
deriving DecidableEq

/-- Environment of one `Upload` call: the form file (or a form error), the
generated UUID, the bucket, and the outcome of each external call. -/
structure UploadEnv where
  formFile : Option MultipartFile
  newId : Str
  bucket : Str
  putOk : Bool
  assetInsertOk : Bool
  taskInsertOk : Bool
  pushOk : Bool
deriving DecidableEq

/-- External calls `Upload` can issue, plus the compensating calls it never
issues (present so that the absence of rollback is expressible). -/
inductive SideEffect where
  | putObject (bucket objectPath : Str)
  | insertAsset (id bucket objectPath mimeType : Str) (size : ℤ)
  | insertTask (assetId : Str)
  | pushQueue (assetId : Str)
  | deleteObject (bucket objectPath : Str)
  | deleteAssetRow (id : Str)
  | deleteTaskRow (id : Str)
deriving DecidableEq

/-- Is this side effect a compensating rollback action? -/
def isCompensation : SideEffect → Bool
  | .deleteObject _ _ => true
  | .deleteAssetRow _ => true
  | .deleteTaskRow _ => true
  | _ => false

/-- Outcomes of `Upload`, mirroring the `errno` values it returns. -/
inductive UploadOutcome where
  | ok (assetId : Str)
  | fileUploadErr
  | fileTooLarge
  | invalidFileType
  | minioErr
  | dbErr
  | redisErr
deriving DecidableEq

/-- The 100MB ceiling of the size check. -/
def maxUploadSizeBytes : ℤ := 104857600

/-- Object name `fmt.Sprintf("%s/%s", assetID, assetID)`. -/
def uploadObjectName (e : UploadEnv) : Str := e.newId ++ '/' :: e.newId

/-- Model of the `Upload` handler: validation, then the four external calls in
sequence, aborting on the first failure.  The trace lists the calls issued, in
order. -/
def Upload (e : UploadEnv) : List SideEffect × UploadOutcome :=
  match e.formFile with
  | none => ([], .fileUploadErr)
  | some file =>
    if maxUploadSizeBytes < file.size then ([], .fileTooLarge)
    else if isValidFileType file.contentType = false then ([], .invalidFileType)
    else
      let path := uploadObjectPath (uploadObjectName e) file.filename
      let t1 : List SideEffect := [.putObject e.bucket path]
      if e.putOk = false then (t1, .minioErr)
      else
        let t2 := t1 ++ [.insertAsset e.newId e.bucket path file.contentType file.size]
        if e.assetInsertOk = false then (t2, .dbErr)
        else
          let t3 := t2 ++ [.insertTask e.newId]
          if e.taskInsertOk = false then (t3, .dbErr)
          else
            let t4 := t3 ++ [.pushQueue e.newId]
            if e.pushOk = false then (t4, .redisErr) else (t4, .ok e.newId)

/-! ### DeleteAsset (asset_handler.go) -/

/-- State of the stores as `DeleteAsset` touches them: asset rows (with the
soft-delete column), the set of asset ids owning an `asset_embeddings` row,
and the stored objects as (bucket, key) pairs. -/
structure DbState where
  assets : List Asset
  embeddings : List Str
  objects : List (Str × Str)
deriving DecidableEq

/-- Outcomes of `DeleteAsset`. -/
inductive DeleteOutcome where
  | ok
  | assetNotFound
  | minioErr
  | dbErr
deriving DecidableEq

/-- GORM `First` with an id filter: the soft-delete convention keeps rows with
`deleted_at` set out of every query. -/
def findActiveAsset (st : DbState) (id : Str) : Option Asset :=
  st.assets.find? (fun a => a.id == id && a.deletedAt.isNone)

/-- Model of the `DeleteAsset` handler: look the asset up, remove the backing
object from MinIO, then issue the GORM delete — which, because `Asset` has a
`gorm.DeletedAt` column, is a soft delete (an UPDATE setting `deleted_at`),
not a SQL DELETE.  No statement ever touches the `asset_embeddings` table. -/
def DeleteAsset (st : DbState) (id : Str) (now : ℚ) (minioOk dbOk : Bool) :
    DbState × DeleteOutcome :=
  match findActiveAsset st id with
  | none => (st, .assetNotFound)
  | some a =>
    if minioOk = false then (st, .minioErr)
    else
      let st1 : DbState :=
        { st with objects :=
            st.objects.filter (fun p => !(p.1 == a.bucketName && p.2 == a.objectName)) }
      if dbOk = false then (st1, .dbErr)
      else
        let softDeleted :=
          st1.assets.map
            (fun b => if b.id == a.id then { b with deletedAt := some now } else b)
        ({ st1 with assets := softDeleted }, .ok)

/-! ### RAG message assembly (callLLMForRAG) -/

/-- One turn of incoming conversation history. -/
structure ChatMessage where
  role : Str
  content : Str
deriving DecidableEq

/-- One message sent to the text-generation provider. -/
structure LlmMsg where
  role : Str
  content : Str
deriving DecidableEq

/-- The fixed system instruction. -/
def ragSystemPrompt : Str :=
  chars "You are ThinkBank assistant. Answer based on provided context. If uncertain, say what is missing."

/-- Decimal digits of a natural number (for the `[idx]` markers). -/
def natToStr (n : ℕ) : Str := (Nat.repr n).data

/-- Model of the context builder loop of `callLLMForRAG`. -/
def buildRagContext (sources : List SearchResult) : Str :=
  (sources.enum.map (fun p =>
    chars "[" ++ natToStr (p.1 + 1) ++ chars "] " ++ chars "id=" ++ p.2.id ++
      chars ", file=" ++ p.2.fileName ++ chars ", mime=" ++ p.2.mimeType ++ ['\n'] ++
    (if (goTrimSpace p.2.caption).isEmpty then []
     else chars "caption: " ++ p.2.caption ++ ['\n']) ++
    (if (goTrimSpace p.2.contentPreview).isEmpty then []
     else chars "text: " ++ p.2.contentPreview ++ ['\n']) ++
    ['\n'])).flatten

/-- The final user message: current query plus assembled context. -/
def ragUserPrompt (query : Str) (sources : List SearchResult) : Str :=
  chars "User query:\n" ++ query ++ chars "\n\nRetrieved context:\n" ++ buildRagContext sources

/-- Role coercion of one history turn: lower-cased and trimmed, anything other
than assistant/system becomes user. -/
def coerceRole (role : Str) : Str :=
  let r := goToLower (goTrimSpace role)
  if ¬(r = chars "assistant") ∧ ¬(r = chars "system") then chars "user" else r

/-- Model of the message list sent to the provider: system instruction, the
kept history turns, then the user prompt. -/
def buildRagMessages (query : Str) (history : List ChatMessage)
    (sources : List SearchResult) : List LlmMsg :=
  (history.foldl (fun acc h =>
      let content := goTrimSpace h.content
      if content.isEmpty then acc else acc ++ [⟨coerceRole h.role, content⟩])
    [⟨chars "system", ragSystemPrompt⟩])
  ++ [⟨chars "user", ragUserPrompt query sources⟩]

/-- One history turn as it survives normalization: dropped when its trimmed
content is empty, otherwise kept with coerced role and trimmed content. -/
def normalizeTurn (h : ChatMessage) : Option LlmMsg :=
  let content := goTrimSpace h.content
  if content.isEmpty then none else some ⟨coerceRole h.role, content⟩

/-! ### Query-parameter parsing and the Search handler -/

def isDigitChar (c : Char) : Bool := 48 ≤ c.toNat && c.toNat ≤ 57

def digitsVal (s : Str) : ℕ := s.foldl (fun acc c => 10 * acc + (c.toNat - 48)) 0

/-- Non-empty all-digit run, or failure. -/
def parseDigits (s : Str) : Option ℕ :=
  if !s.isEmpty && s.all isDigitChar then some (digitsVal s) else none

/-- Model of `strconv.Atoi`: optional sign, digits, 64-bit range. -/
def goAtoi (s : Str) : Option ℤ :=
  match s with
  | [] => none
  | '+' :: rest =>
    (parseDigits rest).bind (fun m => if m ≤ 9223372036854775807 then some (m : ℤ) else none)
  | '-' :: rest =>
    (parseDigits rest).bind (fun m => if m ≤ 9223372036854775808 then some (-(m : ℤ)) else none)
  | _ =>
    (parseDigits s).bind (fun m => if m ≤ 9223372036854775807 then some (m : ℤ) else none)

def pow10 (n : ℕ) : ℕ := 10 ^ n

/-- Scale a mantissa by a signed power of ten. -/
def applyExp (m : ℚ) (e : ℤ) : ℚ :=
  if 0 ≤ e then qmul m (mkRat (pow10 e.toNat) 1) else qmul m (mkRat 1 (pow10 (-e).toNat))

/-- Signed digit run after the exponent marker. -/
def parseExpPart (s : Str) : Option ℤ :=
  match s with
  | '+' :: rest => (parseDigits rest).map (fun m => (m : ℤ))
  | '-' :: rest => (parseDigits rest).map (fun m => -(m : ℤ))
  | _ => (parseDigits s).map (fun m => (m : ℤ))

/-- Integer and fractional digit runs of a decimal mantissa; at least one
digit overall is required. -/
def parseMantissaBody (body : Str) : Option (ℚ × Str) :=
  let ip := body.takeWhile isDigitChar
  let r1 := body.dropWhile isDigitChar
  let fp := match r1 with
    | '.' :: t => t.takeWhile isDigitChar
    | _ => []
  let r2 := match r1 with
    | '.' :: t => t.dropWhile isDigitChar
    | _ => r1
  if ip.isEmpty && fp.isEmpty then none
  else some (mkRat (digitsVal (ip ++ fp)) (pow10 fp.length), r2)

/-- Model of `strconv.ParseFloat` on the decimal forms (optional sign, digit
runs around an optional dot, optional signed exponent), with the value exact
instead of rounded to binary.  The special forms it also accepts (inf/nan
spellings, hexadecimal mantissas, digit-group underscores) do not arise here
and are out of the model, as is the `ErrRange` it reports when the value
overflows `float64` — those cases concern which syntactically numeric inputs
survive, not the missing/non-numeric fallback the theorems below are about. -/
def goParseFloatDec (s : Str) : Option ℚ :=
  let neg : Bool := match s with
    | '-' :: _ => true
    | _ => false
  let body := match s with
    | '+' :: rest => rest
    | '-' :: rest => rest
    | _ => s
  match parseMantissaBody body with
  | none => none
  | some (m, rest) =>
    let signed := if neg then qmul m (-1) else m
    match rest with
    | [] => some signed
    | 'e' :: t => (parseExpPart t).map (applyExp signed)
    | 'E' :: t => (parseExpPart t).map (applyExp signed)
    | _ => none

/-- Model of `parseIntWithDefault`. -/
def parseIntWithDefault (raw : Str) (fallback : ℤ) : ℤ :=
  let t := goTrimSpace raw
  if t.isEmpty then fallback else (goAtoi t).getD fallback

/-- Model of `parseFloatWithDefault`. -/
def parseFloatWithDefault (raw : Str) (fallback : ℚ) : ℚ :=
  let t := goTrimSpace raw
  if t.isEmpty then fallback else (goParseFloatDec t).getD fallback

/-- HTTP-level outcomes of the handlers in search_handler.go.  `badRequest` is
the validation rejection (the Chat handler uses it; Search never does). -/
inductive HttpOutcome (α : Type) where
  | ok (a : α)
  | badRequest
  | internalError
  | badGateway
deriving DecidableEq

/-- The Search response payload. -/
structure SearchResponse where
  query : Str
  total : ℕ
  results : List SearchResult
deriving DecidableEq

/-- Model of the `Search` HTTP handler: trim the query, parse limit and
threshold with silent defaults 20 and 0.15, and run retrieval. -/
def SearchH (env : RetrieveEnv) (dbResult : Except Unit (List Asset))
    (rawQ rawLimit rawThreshold : Str) : HttpOutcome SearchResponse :=
  let query := goTrimSpace rawQ
  let limit := parseIntWithDefault rawLimit 20
  let threshold := parseFloatWithDefault rawThreshold (mkRat 3 20)
  match retrieveAssetsForQueryE env dbResult query limit threshold with
  | .error _ => .internalError
  | .ok results => .ok ⟨query, results.length, results⟩

/-! ## Theorems

Helper lemmas first, then one theorem per claim (with witnesses and
counterexamples where required). -/

theorem qadd_eq (a b : ℚ) : qadd a b = a + b := (Rat.add_def' a b).symm

theorem qsub_eq (a b : ℚ) : qsub a b = a - b := (Rat.sub_def' a b).symm

theorem qmul_eq (a b : ℚ) : qmul a b = a * b := by
  rw [qmul, Rat.mkRat_eq_div, Int.cast_mul, Nat.cast_mul, mul_div_mul_comm,
    Rat.num_div_den, Rat.num_div_den]

theorem qmin_eq (a b : ℚ) : qmin a b = min a b := by rw [qmin, min_def]

theorem qmax_eq (a b : ℚ) : qmax a b = max a b := by rw [qmax, max_def]

theorem ratFloor_eq (q : ℚ) : Rat.floor q = ⌊q⌋ := by
  rw [Rat.floor_def', Rat.floor_def]

theorem mkRat_half_eq : (mkRat 1 2 : ℚ) = 1 / 2 := by
  rw [Rat.mkRat_eq_div]; norm_num

theorem mkRat_natCast_nonneg (n d : ℕ) : (0 : ℚ) ≤ mkRat n d := by
  rw [Rat.mkRat_eq_div]
  positivity

/-- Rounding to three decimals preserves the upper bound 1. -/
theorem round3_le_one {q : ℚ} (h : q ≤ 1) : round3 q ≤ 1 := by
  have hx : qmul q 1000 ≤ 1000 := by rw [qmul_eq]; linarith
  have hg : goRound (qmul q 1000) ≤ 1000 := by
    unfold goRound
    split
    · next hneg =>
      have h0 : (0 : ℤ) ≤ Rat.floor (qadd (-(qmul q 1000)) (mkRat 1 2)) := by
        rw [ratFloor_eq, qadd_eq, mkRat_half_eq]
        apply Int.floor_nonneg.mpr
        linarith
      omega
    · next hpos =>
      rw [ratFloor_eq, qadd_eq, mkRat_half_eq]
      calc ⌊qmul q 1000 + 1 / 2⌋ ≤ ⌊(1000 : ℚ) + 1 / 2⌋ :=
            Int.floor_le_floor (by linarith)
        _ = 1000 := by
            rw [show ((1000 : ℚ) + 1 / 2) = 2001 / 2 by norm_num]
            rw [Int.floor_eq_iff]
            norm_num
  unfold round3
  rw [Rat.mkRat_eq_div]
  rw [div_le_one (by norm_num)]
  exact_mod_cast hg

theorem lexSubstringScore_nonneg (nq : Str) (a : Asset) : 0 ≤ lexSubstringScore nq a := by
  unfold lexSubstringScore; split <;> norm_num

theorem lexCaptionScore_nonneg (nq : Str) (a : Asset) : 0 ≤ lexCaptionScore nq a := by
  unfold lexCaptionScore; split <;> norm_num

theorem coverageScore_nonneg (nq : Str) (a : Asset) : 0 ≤ coverageScore nq a := by
  unfold coverageScore; split
  · norm_num
  · exact mkRat_natCast_nonneg _ _

/-- The guarded coverage term of the code equals the unguarded spec fraction:
with no query runes both sides are zero (`mkRat n 0 = 0`). -/
theorem coverageScore_eq_spec (nq : Str) (a : Asset) :
    coverageScore nq a = specCoverage nq a := by
  unfold coverageScore specCoverage
  split
  · next h =>
    rw [List.isEmpty_iff] at h
    rw [h]
    simp [mkRat]
  · rfl

theorem charScore_nonneg (q : Str) (a : Asset) : 0 ≤ charScoreOf q a := by
  unfold charScoreOf
  split
  · exact mkRat_natCast_nonneg 1 10
  · rw [qadd_eq, qadd_eq]
    have h1 := lexSubstringScore_nonneg (normalizeSearchText q) a
    have h2 := lexCaptionScore_nonneg (normalizeSearchText q) a
    have h3 := coverageScore_nonneg (normalizeSearchText q) a
    linarith

theorem charScoreNorm_le_one (q : Str) (a : Asset) : charScoreNormOf q a ≤ 1 := by
  unfold charScoreNormOf
  rw [qmin_eq]
  exact min_le_right _ _

theorem charScoreNorm_nonneg (q : Str) (a : Asset) : 0 ≤ charScoreNormOf q a := by
  unfold charScoreNormOf
  rw [qmin_eq]
  apply le_min
  · rw [qmul_eq]
    have h1 := charScore_nonneg q a
    have h2 : (0 : ℚ) ≤ mkRat 1 3 := mkRat_natCast_nonneg 1 3
    exact mul_nonneg h1 h2
  · norm_num

/-- The vector-score map in force is either empty or built from the pgvector
rows. -/
theorem vectorScoresOf_cases (env : RetrieveEnv) (q : Str) :
    vectorScoresOf env q = [] ∨ vectorScoresOf env q = buildVectorScores env.vectorRows := by
  unfold vectorScoresOf
  by_cases h1 : hasQueryOf q = true
  · rw [if_pos h1]
    cases hqv : env.queryVector with
    | none => exact Or.inl rfl
    | some v =>
      by_cases h2 : env.vectorDbOk = true
      · rw [if_pos h2]; exact Or.inr rfl
      · rw [if_neg h2]; exact Or.inl rfl
  · rw [if_neg h1]; exact Or.inl rfl

/-- Every value stored by `buildVectorScores` lies in `[0,1]` when all
distances are nonnegative. -/
theorem buildVectorScores_bounds {rows : List (Str × ℚ)}
    (hd : ∀ p ∈ rows, 0 ≤ p.2) :
    ∀ p ∈ buildVectorScores rows, 0 ≤ p.2 ∧ p.2 ≤ 1 := by
  unfold buildVectorScores
  suffices h : ∀ (rs : List (Str × ℚ)) (acc : List (Str × ℚ)),
      (∀ p ∈ rs, 0 ≤ p.2) → (∀ p ∈ acc, 0 ≤ p.2 ∧ p.2 ≤ 1) →
      ∀ p ∈ rs.foldl (fun m p => mapInsert m p.1 (qmax 0 (qsub 1 p.2))) acc,
        0 ≤ p.2 ∧ p.2 ≤ 1 by
    exact h rows [] hd (by intro p hp; cases hp)
  intro rs
  induction rs with
  | nil => intro acc _ hacc p hp; exact hacc p hp
  | cons r rest ih =>
    intro acc hrs hacc p hp
    refine ih (mapInsert acc r.1 (qmax 0 (qsub 1 r.2))) ?_ ?_ p hp
    · intro x hx; exact hrs x (List.mem_cons_of_mem _ hx)
    · intro x hx
      rcases List.mem_cons.mp hx with hx1 | hx2
      · subst hx1
        have hr : 0 ≤ r.2 := hrs r (List.mem_cons_self _ _)
        constructor
        · rw [qmax_eq]; exact le_max_left _ _
        · rw [qmax_eq, qsub_eq]
          apply max_le (by norm_num)
          linarith
      · exact hacc x (List.mem_filter.mp hx2).1

/-- A successful association-list lookup returns a stored value. -/
theorem lookup_mem {m : List (Str × ℚ)} {k : Str} {v : ℚ}
    (h : List.lookup k m = some v) : ∃ p ∈ m, p.2 = v := by
  induction m with
  | nil => cases h
  | cons a rest ih =>
    by_cases he : (k == a.1) = true
    · refine ⟨a, List.mem_cons_self _ _, ?_⟩
      have h2 : some a.2 = some v := by
        rw [List.lookup_cons] at h
        simpa [he] using h
      exact Option.some.inj h2
    · have h2 : List.lookup k rest = some v := by
        rw [List.lookup_cons] at h
        simpa [he] using h
      obtain ⟨p, hp, hv⟩ := ih h2
      exact ⟨p, List.mem_cons_of_mem _ hp, hv⟩

/-- A Go-map read from the similarity map is in `[0,1]` under nonnegative
distances (missing keys read as zero). -/
theorem mapLookup_bounds {rows : List (Str × ℚ)} (hd : ∀ p ∈ rows, 0 ≤ p.2)
    (k : Str) : 0 ≤ mapLookup (buildVectorScores rows) k ∧
      mapLookup (buildVectorScores rows) k ≤ 1 := by
  unfold mapLookup
  cases hl : List.lookup k (buildVectorScores rows) with
  | none => simp
  | some v =>
    obtain ⟨p, hp, hv⟩ := lookup_mem hl
    have := buildVectorScores_bounds hd p hp
    simp only [Option.getD_some]
    rw [← hv]
    exact this

theorem hybridBase_le_one {scores : List (Str × ℚ)} {vec lex : ℚ}
    (_hv0 : 0 ≤ vec) (hv1 : vec ≤ 1) (_hl0 : 0 ≤ lex) (hl1 : lex ≤ 1) :
    hybridBase scores vec lex ≤ 1 := by
  unfold hybridBase
  split
  · exact hl1
  · rw [qadd_eq, qmul_eq, qmul_eq]
    rw [show (mkRat 7 10 : ℚ) = 7 / 10 by rw [Rat.mkRat_eq_div]; norm_num]
    rw [show (mkRat 3 10 : ℚ) = 3 / 10 by rw [Rat.mkRat_eq_div]; norm_num]
    linarith

theorem recencyAdjust_nonpos {now created : ℚ} (h : created ≤ now) :
    recencyAdjust now created ≤ 0 := by
  unfold recencyAdjust
  rw [qmul_eq, qmul_eq, qsub_eq]
  rw [show (mkRat 1 1000 : ℚ) = 1 / 1000 by rw [Rat.mkRat_eq_div]; norm_num]
  nlinarith [sub_nonneg.mpr h]

/-- Per-candidate score bound: at most 1 after rounding whenever the pgvector
distances are nonnegative and the asset is not dated in the future. -/
theorem finalScore_le_one {env : RetrieveEnv} {q : Str} {a : Asset}
    (hrows : ∀ p ∈ env.vectorRows, 0 ≤ p.2) (hc : a.createdAt ≤ env.now) :
    finalScoreOf env q a ≤ 1 := by
  unfold finalScoreOf
  apply round3_le_one
  have hvec : 0 ≤ mapLookup (vectorScoresOf env q) a.id ∧
      mapLookup (vectorScoresOf env q) a.id ≤ 1 := by
    rcases vectorScoresOf_cases env q with h | h
    · rw [h]; constructor <;> simp [mapLookup]
    · rw [h]; exact mapLookup_bounds hrows a.id
  have hbase : hybridBase (vectorScoresOf env q) (mapLookup (vectorScoresOf env q) a.id)
      (charScoreNormOf q a) ≤ 1 :=
    hybridBase_le_one hvec.1 hvec.2 (charScoreNorm_nonneg q a) (charScoreNorm_le_one q a)
  have hrec := recencyAdjust_nonpos hc
  rw [qadd_eq]
  linarith

/-- Unfolding membership in the ranking loop output: each kept result comes
from a candidate, and passed the threshold check when the query was
non-empty. -/
theorem mem_scoredResults {env : RetrieveEnv} {q : Str} {th : ℚ}
    {assets : List Asset} {r : SearchResult}
    (h : r ∈ scoredResults env q th assets) :
    ∃ a ∈ assets, r = mkSearchResult env q a ∧ (hasQueryOf q = true → th ≤ r.score) := by
  simp only [scoredResults, List.mem_filterMap] at h
  obtain ⟨a, ha, hf⟩ := h
  by_cases hc : hasQueryOf q = true ∧ (mkSearchResult env q a).score < th
  · rw [if_pos hc] at hf; cases hf
  · rw [if_neg hc] at hf
    have hr : mkSearchResult env q a = r := Option.some.inj hf
    subst hr
    exact ⟨a, ha, rfl, fun hq => le_of_not_lt (fun hlt => hc ⟨hq, hlt⟩)⟩

/-- Every returned result was produced by the ranking loop. -/
theorem mem_retrieve {env : RetrieveEnv} {assets : List Asset} {q : Str}
    {limit : ℤ} {th : ℚ} {r : SearchResult}
    (h : r ∈ retrieveAssetsForQuery env assets q limit th) :
    r ∈ scoredResults env q th assets := by
  unfold retrieveAssetsForQuery at h
  exact (List.perm_insertionSort resultLE _).mem_iff.mp (List.take_subset _ _ h)

/-- Claim C1 (amended): for every candidate set, every well-formed query
(including the empty query) and every vector/lexical score combination, the
combined score of every returned result is at most 1 after rounding, provided
the pgvector distances are nonnegative and no candidate is created in the
future.  The lower bound 0 asserted by the claim fails: the recency adjustment
subtracts 0.001 per hour of age before rounding and can push a returned score
below zero (see the counterexample). -/
theorem search_combined_score_le_one (env : RetrieveEnv) (assets : List Asset)
    (q : Str) (limit : ℤ) (th : ℚ)
    (hrows : ∀ p ∈ env.vectorRows, 0 ≤ p.2)
    (hnow : ∀ a ∈ assets, a.createdAt ≤ env.now) :
    ∀ r ∈ retrieveAssetsForQuery env assets q limit th, r.score ≤ 1 := by
  intro r hr
  obtain ⟨a, ha, hre, -⟩ := mem_scoredResults (mem_retrieve hr)
  subst hre
  exact finalScore_le_one hrows (hnow a ha)

/-- Claim C1 as stated is false on the code: with the empty query (no
threshold filtering) and a candidate created 1000 hours ago, the single
returned result carries combined score −0.967 ∉ [0,1]. -/
theorem search_combined_score_unit_interval_counterexample :
    ∃ r ∈ retrieveAssetsForQuery
      { now := 1000, queryVector := none, vectorDbOk := true, vectorRows := [],
        presign := fun _ _ => none }
      [{ id := chars "a", bucketName := [], objectName := chars "f", mimeType := [],
         caption := [], contentText := [], processingStatus := chars "COMPLETED",
         sizeBytes := 1, createdAt := 0, deletedAt := none }]
      [] 20 (mkRat 3 20), ¬(0 ≤ r.score ∧ r.score ≤ 1) := by decide

theorem search_combined_score_le_one_witness :
    ({ id := chars "a", fileName := chars "invoice.pdf", mimeType := [],
       sizeBytes := 1, caption := chars "invoice", contentPreview := [],
       processingStatus := chars "COMPLETED", score := 1, url := [],
       createdAt := 0 } : SearchResult).score ≤ 1 :=
  search_combined_score_le_one
    { now := 0, queryVector := none, vectorDbOk := true, vectorRows := [],
      presign := fun _ _ => none }
    [{ id := chars "a", bucketName := [], objectName := chars "invoice.pdf",
       mimeType := [], caption := chars "invoice", contentText := [],
       processingStatus := chars "COMPLETED", sizeBytes := 1, createdAt := 0,
       deletedAt := none }]
    (chars "invoice") 20 (mkRat 3 20) (by decide) (by decide) _ (by decide)

/-- Claim C2: when the query is non-empty after normalization, no returned
result has combined score strictly below the threshold; when it is empty, the
threshold drops no candidate (the ranking loop keeps every one) and the output
is sorted by the recency-adjusted score with ties broken by creation time
descending. -/
theorem search_threshold_and_empty_query (env : RetrieveEnv) (assets : List Asset)
    (q : Str) (limit : ℤ) (th : ℚ) :
    (hasQueryOf q = true →
      ∀ r ∈ retrieveAssetsForQuery env assets q limit th, th ≤ r.score) ∧
    (hasQueryOf q = false →
      scoredResults env q th assets = assets.map (mkSearchResult env q) ∧
      List.Sorted resultLE (retrieveAssetsForQuery env assets q limit th)) := by
  constructor
  · intro hq r hr
    obtain ⟨a, ha, hre, hth⟩ := mem_scoredResults (mem_retrieve hr)
    exact hth hq
  · intro hq
    refine ⟨?_, ?_⟩
    · simp only [scoredResults]
      have hcong : ∀ a ∈ assets,
          (if hasQueryOf q = true ∧ (mkSearchResult env q a).score < th then none
           else some (mkSearchResult env q a)) = some (mkSearchResult env q a) := by
        intro a _
        rw [if_neg]
        rintro ⟨h1, -⟩
        rw [hq] at h1
        cases h1
      exact (List.filterMap_congr hcong).trans
        (List.filterMap_eq_map (mkSearchResult env q) ▸ rfl)
    · unfold retrieveAssetsForQuery
      exact (List.sorted_insertionSort resultLE _).sublist (List.take_sublist _ _)

theorem search_threshold_and_empty_query_witness :
    mkRat 3 20 ≤
      ({ id := chars "a", fileName := chars "invoice.pdf", mimeType := [],
         sizeBytes := 1, caption := chars "invoice", contentPreview := [],
         processingStatus := chars "COMPLETED", score := 1, url := [],
         createdAt := 0 } : SearchResult).score ∧
    List.Sorted resultLE (retrieveAssetsForQuery
      { now := 0, queryVector := none, vectorDbOk := true, vectorRows := [],
        presign := fun _ _ => none }
      [{ id := chars "a", bucketName := [], objectName := chars "invoice.pdf",
         mimeType := [], caption := chars "invoice", contentText := [],
         processingStatus := chars "COMPLETED", sizeBytes := 1, createdAt := 0,
         deletedAt := none }]
      [] 20 (mkRat 3 20)) :=
  ⟨(search_threshold_and_empty_query
      { now := 0, queryVector := none, vectorDbOk := true, vectorRows := [],
        presign := fun _ _ => none }
      [{ id := chars "a", bucketName := [], objectName := chars "invoice.pdf",
         mimeType := [], caption := chars "invoice", contentText := [],
         processingStatus := chars "COMPLETED", sizeBytes := 1, createdAt := 0,
         deletedAt := none }]
      (chars "invoice") 20 (mkRat 3 20)).1 (by decide) _ (by decide),
   ((search_threshold_and_empty_query
      { now := 0, queryVector := none, vectorDbOk := true, vectorRows := [],
        presign := fun _ _ => none }
      [{ id := chars "a", bucketName := [], objectName := chars "invoice.pdf",
         mimeType := [], caption := chars "invoice", contentText := [],
         processingStatus := chars "COMPLETED", sizeBytes := 1, createdAt := 0,
         deletedAt := none }]
      [] 20 (mkRat 3 20)).2 (by decide)).2⟩

/-- Bridge between the code's normalized character score and the spec's
lexical-score formula (shared by the C3 and C4 theorems). -/
theorem charScoreNorm_eq_specLexical (q : Str) (a : Asset) :
    charScoreNormOf q a = specLexicalScore q a := by
  unfold charScoreNormOf charScoreOf specLexicalScore
  by_cases hq : hasQueryOf q = false
  · rw [if_pos hq]
    have he : (normalizeSearchText q).isEmpty = true := by
      unfold hasQueryOf at hq
      simpa using hq
    rw [if_pos he]
    decide
  · rw [if_neg hq]
    have he : (normalizeSearchText q).isEmpty = false := by
      cases h : (normalizeSearchText q).isEmpty
      · rfl
      · exact absurd (by unfold hasQueryOf; rw [h]; rfl) hq
    rw [if_neg (by simp [he])]
    rw [coverageScore_eq_spec]
    unfold clamp01
    simp only [qmax_eq, qmin_eq]
    refine (max_eq_right ?_).symm
    refine le_min ?_ (by norm_num)
    rw [qmul_eq]
    apply mul_nonneg
    · rw [qadd_eq, qadd_eq]
      have h1 := lexSubstringScore_nonneg (normalizeSearchText q) a
      have h2 := lexCaptionScore_nonneg (normalizeSearchText q) a
      have h3 : 0 ≤ specCoverage (normalizeSearchText q) a := by
        unfold specCoverage
        exact mkRat_natCast_nonneg _ _
      linarith
    · exact mkRat_natCast_nonneg 1 3

/-- Claim C4: for every candidate, the code's normalized lexical score equals
the specification formula — 2.0 for a substring hit on the normalized
concatenation of filename, MIME type, caption and extracted text, plus 1.0
for a caption hit, plus the fraction of distinct non-space query runes present
in the candidate text, the sum divided by 3.0 and clamped to [0,1] — for a
non-empty normalized query, and the flat constant 1/30 for the empty query
(both cases are the two branches of `specLexicalScore`). -/
theorem lexical_score_formula (q : Str) (a : Asset) :
    charScoreNormOf q a = specLexicalScore q a :=
  charScoreNorm_eq_specLexical q a

/-- Claim C3: when the Embedding Provider fails or returns no vector, the
Search request still succeeds (the result is `Except.ok`, never an error) and
its output equals the spec-side lexical-only ranking, in which every
candidate's combined score is its normalized lexical score plus the recency
adjustment. -/
theorem search_lexical_fallback (env : RetrieveEnv) (assets : List Asset)
    (q : Str) (limit : ℤ) (th : ℚ) (hvec : env.queryVector = none) :
    retrieveAssetsForQueryE env (Except.ok assets) q limit th =
      Except.ok (lexicalOnlyRanking env assets q limit th) := by
  have hscores : vectorScoresOf env q = [] := by
    unfold vectorScoresOf
    rw [hvec]
    split <;> rfl
  have hscore : ∀ a : Asset, finalScoreOf env q a =
      round3 (qadd (specLexicalScore q a) (recencyAdjust env.now a.createdAt)) := by
    intro a
    unfold finalScoreOf
    rw [hscores]
    unfold hybridBase
    rw [if_pos (show ([] : List (Str × ℚ)).isEmpty = true from rfl)]
    rw [charScoreNorm_eq_specLexical]
  have main : retrieveAssetsForQuery env assets q limit th =
      lexicalOnlyRanking env assets q limit th := by
    unfold retrieveAssetsForQuery lexicalOnlyRanking scoredResults
    refine congrArg (fun l => (List.insertionSort resultLE l).take (clampLimit limit)) ?_
    apply List.filterMap_congr
    intro a _
    have hmk : mkSearchResult env q a =
        mkResultWithScore env a
          (round3 (qadd (specLexicalScore q a) (recencyAdjust env.now a.createdAt))) := by
      unfold mkSearchResult
      rw [hscore a]
    dsimp only
    rw [hmk]
  have hok : retrieveAssetsForQueryE env (Except.ok assets) q limit th =
      Except.ok (retrieveAssetsForQuery env assets q limit th) := rfl
  rw [hok, main]

theorem search_lexical_fallback_witness :
    retrieveAssetsForQueryE
      { now := 0, queryVector := none, vectorDbOk := true, vectorRows := [],
        presign := fun _ _ => none }
      (Except.ok
        [{ id := chars "a", bucketName := [], objectName := chars "invoice.pdf",
           mimeType := [], caption := chars "invoice", contentText := [],
           processingStatus := chars "COMPLETED", sizeBytes := 1, createdAt := 0,
           deletedAt := none }])
      (chars "invoice") 20 (mkRat 3 20) =
      Except.ok (lexicalOnlyRanking
        { now := 0, queryVector := none, vectorDbOk := true, vectorRows := [],
          presign := fun _ _ => none }
        [{ id := chars "a", bucketName := [], objectName := chars "invoice.pdf",
           mimeType := [], caption := chars "invoice", contentText := [],
           processingStatus := chars "COMPLETED", sizeBytes := 1, createdAt := 0,
           deletedAt := none }]
        (chars "invoice") 20 (mkRat 3 20)) :=
  search_lexical_fallback _ _ _ _ _ rfl

theorem goPathExtAux_no_dot_before_slash (s t : Str)
    (h : ∀ c ∈ s, ¬(c = '.')) : ∀ acc, goPathExtAux (s ++ '/' :: t) acc = [] := by
  induction s with
  | nil => intro acc; simp [goPathExtAux]
  | cons c rest ih =>
    intro acc
    simp only [List.cons_append, goPathExtAux]
    split
    · rfl
    · split
      · next h2 =>
        simp only [beq_iff_eq] at h2
        exact absurd h2 (h c (List.mem_cons_self _ _))
      · exact ih (fun x hx => h x (List.mem_cons_of_mem _ hx)) (c :: acc)

theorem goPathExtAux_finds_dot (s u : Str)
    (h : ∀ c ∈ s, ¬(c = '.') ∧ ¬(c = '/')) :
    ∀ acc, goPathExtAux (s ++ '.' :: u) acc = '.' :: (s.reverse ++ acc) := by
  induction s with
  | nil => intro acc; simp [goPathExtAux]
  | cons c rest ih =>
    intro acc
    obtain ⟨hd, hsl⟩ := h c (List.mem_cons_self _ _)
    simp only [List.cons_append, goPathExtAux]
    split
    · next h1 =>
      simp only [beq_iff_eq] at h1
      exact absurd h1 hsl
    · split
      · next h2 =>
        simp only [beq_iff_eq] at h2
        exact absurd h2 hd
      · have htail := ih (fun x hx => h x (List.mem_cons_of_mem _ hx)) (c :: acc)
        show goPathExtAux (rest ++ '.' :: u) (c :: acc) = '.' :: ((c :: rest).reverse ++ acc)
        rw [htail]
        simp

theorem goPathExtAux_shape (s : Str) :
    ∀ acc, goPathExtAux s acc = [] ∨ ∃ t, goPathExtAux s acc = '.' :: t := by
  induction s with
  | nil => intro acc; exact Or.inl rfl
  | cons c rest ih =>
    intro acc
    unfold goPathExtAux
    split
    · exact Or.inl rfl
    · split
      · next h2 =>
        have hc : c = '.' := by simpa using h2
        exact Or.inr ⟨acc, by rw [hc]⟩
      · exact ih (c :: acc)

theorem goPathExtAux_chars (s : Str) :
    ∀ acc t, (∀ c ∈ acc, ¬(c = '.') ∧ ¬(c = '/')) → goPathExtAux s acc = '.' :: t →
      ∀ c ∈ t, ¬(c = '.') ∧ ¬(c = '/') := by
  induction s with
  | nil => intro acc t _ h; cases h
  | cons c rest ih =>
    intro acc t hacc h
    unfold goPathExtAux at h
    split at h
    · cases h
    · split at h
      · obtain ⟨-, ht⟩ := List.cons.inj h
        intro x hx
        exact hacc x (ht ▸ hx)
      · next h1 h2 =>
        refine ih (c :: acc) t ?_ h
        intro x hx
        rcases List.mem_cons.mp hx with rfl | hx2
        · exact ⟨fun e => h2 (by simp [e]), fun e => h1 (by simp [e])⟩
        · exact hacc x hx2

/-- With no dot in the generated id, `filepath.Ext` of the object name
`id ++ "/" ++ id` is empty, so `UploadFile` appends an extension. -/
theorem goPathExt_objectName_empty {id : Str} (hid : '.' ∉ id) :
    goPathExt (id ++ '/' :: id) = [] := by
  unfold goPathExt
  rw [List.reverse_append, List.reverse_cons, List.append_assoc, List.singleton_append]
  exact goPathExtAux_no_dot_before_slash id.reverse id.reverse
    (fun c hc e => hid (e ▸ List.mem_reverse.mp hc)) []

/-- Appending a dot-led suffix whose tail has no dot and no separator makes
that suffix the extension of the result. -/
theorem goPathExt_append_dot {base t : Str}
    (h : ∀ c ∈ t, ¬(c = '.') ∧ ¬(c = '/')) :
    goPathExt (base ++ '.' :: t) = '.' :: t := by
  unfold goPathExt
  rw [List.reverse_append, List.reverse_cons, List.append_assoc, List.singleton_append]
  rw [goPathExtAux_finds_dot t.reverse base.reverse
    (fun c hc => h c (List.mem_reverse.mp hc)) []]
  simp

theorem goPathExt_shape (f : Str) : goPathExt f = [] ∨ ∃ t, goPathExt f = '.' :: t :=
  goPathExtAux_shape f.reverse []

theorem goPathExt_chars {f t : Str} (h : goPathExt f = '.' :: t) :
    ∀ c ∈ t, ¬(c = '.') ∧ ¬(c = '/') :=
  goPathExtAux_chars f.reverse [] t (by intro c hc; cases hc) h

/-- Storage-key derivation: with a dot-free id the stored key is the object
name plus the upload's extension (default `.bin`), and that suffix is exactly
the extension of the stored key. -/
theorem uploadObjectPath_key {id filename : Str} (hid : '.' ∉ id) :
    uploadObjectPath (id ++ '/' :: id) filename =
      (id ++ '/' :: id) ++
        (if (goPathExt filename).isEmpty then chars ".bin" else goPathExt filename) ∧
    goPathExt (uploadObjectPath (id ++ '/' :: id) filename) =
      (if (goPathExt filename).isEmpty then chars ".bin" else goPathExt filename) := by
  have hobj : goPathExt (id ++ '/' :: id) = [] := goPathExt_objectName_empty hid
  have h1 : uploadObjectPath (id ++ '/' :: id) filename =
      (id ++ '/' :: id) ++
        (if (goPathExt filename).isEmpty then chars ".bin" else goPathExt filename) := by
    unfold uploadObjectPath
    rw [hobj]
    rfl
  refine ⟨h1, ?_⟩
  rw [h1]
  by_cases hf : (goPathExt filename).isEmpty = true
  · rw [if_pos hf]
    exact goPathExt_append_dot (by decide)
  · rw [if_neg hf]
    rcases goPathExt_shape filename with h | ⟨t, ht⟩
    · rw [h] at hf
      exact absurd rfl hf
    · rw [ht]
      exact goPathExt_append_dot (goPathExt_chars ht)

/-- Claim C5: Upload rejects an over-sized file with `FileTooLarge` and an
unsupported content type with `InvalidFileType`; in both cases the side-effect
trace is empty, so the rejection happens before any object-store,
metadata-store or queue call.  The allow-list check holds exactly when some
allow-list entry is an initial segment of (in particular, equal to) the
declared content type. -/
theorem upload_validation_before_side_effects (e : UploadEnv) (file : MultipartFile)
    (hf : e.formFile = some file) :
    (maxUploadSizeBytes < file.size → Upload e = ([], UploadOutcome.fileTooLarge)) ∧
    (file.size ≤ maxUploadSizeBytes → isValidFileType file.contentType = false →
      Upload e = ([], UploadOutcome.invalidFileType)) ∧
    (isValidFileType file.contentType = true ↔
      ∃ t ∈ validUploadTypes, strStartsWith file.contentType t = true) := by
  refine ⟨?_, ?_, ?_⟩
  · intro hs
    simp [Upload, hf, hs]
  · intro hs ht
    simp [Upload, hf, not_lt.mpr hs, ht]
  · simp [isValidFileType, List.any_eq_true]

theorem upload_validation_before_side_effects_witness :
    Upload ⟨some ⟨chars "big.bin", 157286400, chars "application/zip"⟩,
      chars "id1", chars "b", true, true, true, true⟩ =
      ([], UploadOutcome.fileTooLarge) ∧
    Upload ⟨some ⟨chars "x.zip", 10, chars "application/zip"⟩,
      chars "id1", chars "b", true, true, true, true⟩ =
      ([], UploadOutcome.invalidFileType) :=
  ⟨(upload_validation_before_side_effects _ _ rfl).1 (by decide),
   (upload_validation_before_side_effects _ _ rfl).2.1 (by decide) (by decide)⟩

/-- Claim C6: after validation, Upload issues its four calls in the order
object write, asset insert, task insert, queue push; the first failing call
aborts with that stage's error (`minioErr`, `dbErr`, `dbErr`, `redisErr`) and
the trace holds exactly the calls issued so far — the completed earlier
effects stay in the trace and no compensating delete is ever issued. -/
theorem upload_side_effect_sequencing (e : UploadEnv) (file : MultipartFile)
    (hf : e.formFile = some file) (hs : file.size ≤ maxUploadSizeBytes)
    (ht : isValidFileType file.contentType = true) :
    (e.putOk = false →
      Upload e = ([SideEffect.putObject e.bucket
          (uploadObjectPath (uploadObjectName e) file.filename)],
        UploadOutcome.minioErr)) ∧
    (e.putOk = true → e.assetInsertOk = false →
      Upload e = ([SideEffect.putObject e.bucket
          (uploadObjectPath (uploadObjectName e) file.filename),
        SideEffect.insertAsset e.newId e.bucket
          (uploadObjectPath (uploadObjectName e) file.filename)
          file.contentType file.size],
        UploadOutcome.dbErr)) ∧
    (e.putOk = true → e.assetInsertOk = true → e.taskInsertOk = false →
      Upload e = ([SideEffect.putObject e.bucket
          (uploadObjectPath (uploadObjectName e) file.filename),
        SideEffect.insertAsset e.newId e.bucket
          (uploadObjectPath (uploadObjectName e) file.filename)
          file.contentType file.size,
        SideEffect.insertTask e.newId],
        UploadOutcome.dbErr)) ∧
    (e.putOk = true → e.assetInsertOk = true → e.taskInsertOk = true → e.pushOk = false →
      Upload e = ([SideEffect.putObject e.bucket
          (uploadObjectPath (uploadObjectName e) file.filename),
        SideEffect.insertAsset e.newId e.bucket
          (uploadObjectPath (uploadObjectName e) file.filename)
          file.contentType file.size,
        SideEffect.insertTask e.newId,
        SideEffect.pushQueue e.newId],
        UploadOutcome.redisErr)) ∧
    (e.putOk = true → e.assetInsertOk = true → e.taskInsertOk = true → e.pushOk = true →
      Upload e = ([SideEffect.putObject e.bucket
          (uploadObjectPath (uploadObjectName e) file.filename),
        SideEffect.insertAsset e.newId e.bucket
          (uploadObjectPath (uploadObjectName e) file.filename)
          file.contentType file.size,
        SideEffect.insertTask e.newId,
        SideEffect.pushQueue e.newId],
        UploadOutcome.ok e.newId)) ∧
    (∀ eff ∈ (Upload e).1, isCompensation eff = false) := by
  refine ⟨?_, ?_, ?_, ?_, ?_, ?_⟩
  · intro hp
    simp [Upload, hf, not_lt.mpr hs, ht, hp]
  · intro hp ha
    simp [Upload, hf, not_lt.mpr hs, ht, hp, ha]
  · intro hp ha htk
    simp [Upload, hf, not_lt.mpr hs, ht, hp, ha, htk]
  · intro hp ha htk hq
    simp [Upload, hf, not_lt.mpr hs, ht, hp, ha, htk, hq]
  · intro hp ha htk hq
    simp [Upload, hf, not_lt.mpr hs, ht, hp, ha, htk, hq]
  · intro eff heff
    unfold Upload at heff
    split at heff
    · simp at heff
    · dsimp only at heff
      split at heff
      · simp at heff
      · split at heff
        · simp at heff
        · split at heff
          · simp at heff
            subst heff
            rfl
          · split at heff
            · simp at heff
              rcases heff with rfl | rfl <;> rfl
            · split at heff
              · simp at heff
                rcases heff with rfl | rfl | rfl <;> rfl
              · split at heff <;>
                · simp at heff
                  rcases heff with rfl | rfl | rfl | rfl <;> rfl

theorem upload_side_effect_sequencing_witness :
    Upload ⟨some ⟨chars "photo.jpg", 10, chars "image/png"⟩,
      chars "id1", chars "b", true, false, true, true⟩ =
      ([SideEffect.putObject (chars "b") (chars "id1/id1.jpg"),
        SideEffect.insertAsset (chars "id1") (chars "b") (chars "id1/id1.jpg")
          (chars "image/png") 10],
        UploadOutcome.dbErr) ∧
    isCompensation (SideEffect.putObject (chars "b") (chars "id1/id1.jpg")) = false :=
  ⟨(upload_side_effect_sequencing
      (⟨some ⟨chars "photo.jpg", 10, chars "image/png"⟩,
        chars "id1", chars "b", true, false, true, true⟩ : UploadEnv)
      ⟨chars "photo.jpg", 10, chars "image/png"⟩
      rfl (by decide) (by decide)).2.1 rfl rfl,
   (upload_side_effect_sequencing
      (⟨some ⟨chars "photo.jpg", 10, chars "image/png"⟩,
        chars "id1", chars "b", true, false, true, true⟩ : UploadEnv)
      ⟨chars "photo.jpg", 10, chars "image/png"⟩
      rfl (by decide) (by decide)).2.2.2.2.2 _ (by decide)⟩

/-- Claim C8: for every accepted Upload with a dot-free generated id, the
storage key is the object name `id/id` plus the uploaded file's extension,
defaulting to `.bin` when the filename has none; that suffix is exactly the
extension of the stored key, and the object write (the first call issued)
stores the bytes under that key. -/
theorem upload_storage_key_extension (e : UploadEnv) (file : MultipartFile)
    (hf : e.formFile = some file) (hs : file.size ≤ maxUploadSizeBytes)
    (ht : isValidFileType file.contentType = true) (hid : '.' ∉ e.newId) :
    uploadObjectPath (uploadObjectName e) file.filename =
      uploadObjectName e ++
        (if (goPathExt file.filename).isEmpty then chars ".bin"
         else goPathExt file.filename) ∧
    goPathExt (uploadObjectPath (uploadObjectName e) file.filename) =
      (if (goPathExt file.filename).isEmpty then chars ".bin"
       else goPathExt file.filename) ∧
    (Upload e).1.head? = some (SideEffect.putObject e.bucket
      (uploadObjectPath (uploadObjectName e) file.filename)) := by
  obtain ⟨h1, h2⟩ := @uploadObjectPath_key e.newId file.filename hid
  refine ⟨h1, h2, ?_⟩
  cases hp : e.putOk <;> cases ha : e.assetInsertOk <;>
    cases htk : e.taskInsertOk <;> cases hq : e.pushOk <;>
    simp [Upload, hf, not_lt.mpr hs, ht, hp, ha, htk, hq]

theorem upload_storage_key_extension_witness :
    (Upload ⟨some ⟨chars "photo.jpg", 10, chars "image/png"⟩,
      chars "id1", chars "b", true, true, true, true⟩).1.head? =
      some (SideEffect.putObject (chars "b") (chars "id1/id1.jpg")) :=
  (upload_storage_key_extension
    (⟨some ⟨chars "photo.jpg", 10, chars "image/png"⟩,
      chars "id1", chars "b", true, true, true, true⟩ : UploadEnv)
    ⟨chars "photo.jpg", 10, chars "image/png"⟩
    rfl (by decide) (by decide) (by decide)).2.2

/-- Claim C7, the code evaluated at the failing input: deleting an existing
asset that owns one embedding row removes the stored object and soft-deletes
the asset row (the GORM delete is an UPDATE setting `deleted_at`, because
`Asset` carries a `gorm.DeletedAt` column), but the `asset_embeddings` row
survives: the handler issues no statement against that table and the schema's
ON DELETE CASCADE never fires on an UPDATE. -/
theorem delete_asset_leaves_embedding_row :
    DeleteAsset
      (⟨[⟨chars "a", chars "b", chars "o", [], [], [], chars "COMPLETED", 1, 0, none⟩],
        [chars "a"], [(chars "b", chars "o")]⟩ : DbState)
      (chars "a") 5 true true =
      ((⟨[⟨chars "a", chars "b", chars "o", [], [], [], chars "COMPLETED", 1, 0, some 5⟩],
        [chars "a"], []⟩ : DbState),
       DeleteOutcome.ok) := by decide

/-- The history fold of `buildRagMessages` appends exactly the turns kept by
`normalizeTurn`. -/
theorem buildRagMessages_eq (q : Str) (history : List ChatMessage)
    (sources : List SearchResult) :
    buildRagMessages q history sources =
      ⟨chars "system", ragSystemPrompt⟩ ::
        (history.filterMap normalizeTurn ++
          [⟨chars "user", ragUserPrompt q sources⟩]) := by
  unfold buildRagMessages
  suffices h : ∀ base : List LlmMsg,
      history.foldl (fun acc h =>
        let content := goTrimSpace h.content
        if content.isEmpty then acc else acc ++ [⟨coerceRole h.role, content⟩]) base =
      base ++ history.filterMap normalizeTurn by
    rw [h]
    simp
  intro base
  induction history generalizing base with
  | nil => simp
  | cons hd t ih =>
    simp only [List.foldl_cons]
    by_cases hc : (goTrimSpace hd.content).isEmpty = true
    · rw [if_pos hc, ih]
      have hn : normalizeTurn hd = none := by simp [normalizeTurn, hc]
      simp [List.filterMap_cons, hn]
    · rw [if_neg hc, ih]
      have hn : normalizeTurn hd = some ⟨coerceRole hd.role, goTrimSpace hd.content⟩ := by
        simp [normalizeTurn, hc]
      simp [List.filterMap_cons, hn]

/-- Claim C9: the message list sent to the generation provider is the fixed
system instruction, then the history turns that are non-empty after trimming
(each with its role coerced into system/assistant/user, anything else becoming
user), then — always last — the user message holding the current query and the
assembled source context. -/
theorem rag_message_normalization (q : Str) (history : List ChatMessage)
    (sources : List SearchResult) :
    buildRagMessages q history sources =
      ⟨chars "system", ragSystemPrompt⟩ ::
        (history.filterMap normalizeTurn ++
          [⟨chars "user", ragUserPrompt q sources⟩]) ∧
    ∀ m ∈ history.filterMap normalizeTurn,
      m.role = chars "system" ∨ m.role = chars "assistant" ∨ m.role = chars "user" := by
  refine ⟨buildRagMessages_eq q history sources, ?_⟩
  intro m hm
  rw [List.mem_filterMap] at hm
  obtain ⟨h, -, hn⟩ := hm
  unfold normalizeTurn at hn
  dsimp only at hn
  by_cases hc : (goTrimSpace h.content).isEmpty = true
  · rw [if_pos hc] at hn
    cases hn
  · rw [if_neg hc] at hn
    obtain rfl := Option.some.inj hn
    show coerceRole h.role = chars "system" ∨ coerceRole h.role = chars "assistant" ∨
      coerceRole h.role = chars "user"
    unfold coerceRole
    dsimp only
    by_cases hr : ¬(goToLower (goTrimSpace h.role) = chars "assistant") ∧
        ¬(goToLower (goTrimSpace h.role) = chars "system")
    · rw [if_pos hr]
      exact Or.inr (Or.inr rfl)
    · rw [if_neg hr]
      rcases not_and_or.mp hr with h1 | h2
      · exact Or.inr (Or.inl (not_not.mp h1))
      · exact Or.inl (not_not.mp h2)

/-- Claim C10: a missing or non-numeric limit parameter silently falls back to
20, a missing or non-numeric threshold parameter silently falls back to 0.15,
and the Search handler never answers a validation rejection — malformed
parameters cannot make it return `badRequest`. -/
theorem search_param_fallback (env : RetrieveEnv) (db : Except Unit (List Asset))
    (rawQ rawLimit rawTh : Str) :
    ((goTrimSpace rawLimit).isEmpty = true ∨ goAtoi (goTrimSpace rawLimit) = none →
      parseIntWithDefault rawLimit 20 = 20) ∧
    ((goTrimSpace rawTh).isEmpty = true ∨ goParseFloatDec (goTrimSpace rawTh) = none →
      parseFloatWithDefault rawTh (mkRat 3 20) = mkRat 3 20) ∧
    SearchH env db rawQ rawLimit rawTh ≠ HttpOutcome.badRequest := by
  refine ⟨?_, ?_, ?_⟩
  · intro h
    unfold parseIntWithDefault
    rcases h with h | h
    · rw [if_pos h]
    · by_cases he : (goTrimSpace rawLimit).isEmpty = true
      · rw [if_pos he]
      · rw [if_neg he, h]
        rfl
  · intro h
    unfold parseFloatWithDefault
    rcases h with h | h
    · rw [if_pos h]
    · by_cases he : (goTrimSpace rawTh).isEmpty = true
      · rw [if_pos he]
      · rw [if_neg he, h]
        rfl
  · unfold SearchH retrieveAssetsForQueryE
    cases db <;> simp

theorem search_param_fallback_witness :
    parseIntWithDefault (chars "abc") 20 = 20 ∧
    parseFloatWithDefault (chars "zz") (mkRat 3 20) = mkRat 3 20 ∧
    SearchH (⟨0, none, true, [], fun _ _ => none⟩ : RetrieveEnv) (Except.error ())
      (chars "q") (chars "abc") (chars "zz") ≠ HttpOutcome.badRequest :=
  ⟨(search_param_fallback (⟨0, none, true, [], fun _ _ => none⟩ : RetrieveEnv)
      (Except.error ()) (chars "q") (chars "abc") (chars "zz")).1 (Or.inr (by decide)),
   (search_param_fallback (⟨0, none, true, [], fun _ _ => none⟩ : RetrieveEnv)
      (Except.error ()) (chars "q") (chars "abc") (chars "zz")).2.1 (Or.inr (by decide)),
   (search_param_fallback (⟨0, none, true, [], fun _ _ => none⟩ : RetrieveEnv)
      (Except.error ()) (chars "q") (chars "abc") (chars "zz")).2.2⟩
